import Mathlib

/-!
Shallow embedding of the ISSN metadata extractor (`src/app.py`) and proofs
about the claims of its specification.

The embedding models the Python source directly:
* Python `date` values are `Date` triples compared lexicographically;
* Python `str.strip` / `str.splitlines` / `str.replace(",", "\n")` are
  modelled character-by-character (`pyStrip`, `pySplitlines`,
  `pyReplaceCommaNL`);
* `fetch_articles` is modelled over an abstract HTTP outcome: a transport
  failure (exception from `requests.get`), or a response with a status code
  and an optional parsed body (`none` models a body on which
  `r.json()["message"]["items"]` raises — caught by the bare `except`);
* the row-accumulation / file-splitting loop of the `if run:` block is a
  fold over `SplitState`, mirroring `file_part`, `rows_written`, the open
  buffer and the list of already-closed files; the uncaught `IndexError`
  raised by `art.get("title", [""])[0]` on a present-but-empty list is
  modelled by `Option` (`mapRow` returns `none`, the run result is `crash`).
-/

namespace App

/-- Python `datetime.date`, compared lexicographically on (year, month, day). -/
structure Date where
  year : Nat
  month : Nat
  day : Nat
deriving DecidableEq

/-- Python `from_date <= to_date` on `date` values (lexicographic). -/
def dateLe (a b : Date) : Bool :=
  if a.year ≠ b.year then decide (a.year < b.year)
  else if a.month ≠ b.month then decide (a.month < b.month)
  else decide (a.day ≤ b.day)

/-- Two-digit zero padding, as in Python `date.isoformat`. -/
def pad2 (n : Nat) : String := if n < 10 then "0" ++ Nat.repr n else Nat.repr n

/-- Four-digit zero padding for the year, as in Python `date.isoformat`. -/
def pad4 (n : Nat) : String :=
  if n < 10 then "000" ++ Nat.repr n
  else if n < 100 then "00" ++ Nat.repr n
  else if n < 1000 then "0" ++ Nat.repr n
  else Nat.repr n

/-- Python `str(d)` for a `date` `d`: the ISO form `YYYY-MM-DD`. -/
def dateIso (d : Date) : String :=
  pad4 d.year ++ "-" ++ pad2 d.month ++ "-" ++ pad2 d.day

/-- Drop leading whitespace characters (helper for `pyStrip`). -/
def stripChars (l : List Char) : List Char :=
  ((l.dropWhile Char.isWhitespace).reverse.dropWhile Char.isWhitespace).reverse

/-- Python `str.strip()`: remove whitespace from both ends. -/
def pyStrip (s : String) : String := (stripChars s.data).asString

/-- Python `str.replace(",", "\n")`: a single-character replacement is a map. -/
def pyReplaceCommaNL (s : String) : String :=
  String.mk (s.data.map (fun c => if c = ',' then '\n' else c))

/-- Split a character list at newline characters (separator semantics). -/
def splitNL : List Char → List (List Char)
  | [] => [[]]
  | c :: rest =>
      if c = '\n' then [] :: splitNL rest
      else
        match splitNL rest with
        | [] => [[c]]
        | cur :: rs => (c :: cur) :: rs

/-- Python `str.splitlines()` for newline-separated text: like splitting on
the separator, except that a trailing newline does not produce a final empty
line, and the empty string has no lines. -/
def pySplitlines (s : String) : List String :=
  if s.data = [] then []
  else if s.data.getLast? = some '\n' then ((splitNL s.data).dropLast).map List.asString
  else (splitNL s.data).map List.asString

/-- Lexicographic order on strings by code points (Python string order),
stated on the underlying character lists so that it evaluates. -/
def strDataLe (a b : String) : Prop := a.data ≤ b.data

instance : DecidableRel strDataLe :=
  fun a b => inferInstanceAs (Decidable (a.data ≤ b.data))

/-- Source `normalize_issns`: keep truthy (non-empty) raw strings, strip each,
remove duplicates and sort (Python `sorted(set(clean))`). -/
def normalize_issns (issns : List String) : List String :=
  List.insertionSort strDataLe (((issns.filter (fun i => i != "")).map pyStrip).dedup)

/-- The subset of a Crossref work record read by the row mapping.  Each field
models `art.get(...)`: `none` when the key is absent.  `title` and
`containerTitle` are string lists in the API, accessed as `[...][0]`. -/
structure Record where
  doi : Option String
  title : Option (List String)
  volume : Option String
  issue : Option String
  page : Option String
  containerTitle : Option (List String)
  publisher : Option String
deriving DecidableEq

/-- Outcome of the HTTP GET in `fetch_articles`: a transport failure
(exception raised by `requests.get`, e.g. network error or timeout), or a
response with a status code and an optional parsed item list (`none` models a
malformed body on which `r.json()["message"]["items"]` raises). -/
inductive HttpOutcome where
  | failure
  | response (status : Nat) (body : Option (List Record))
deriving DecidableEq

/-- Source `fetch_articles`: return the item list on a 200 response with a
well-formed body; on any failure (transport error, non-200 status, malformed
body) the bare `except` swallows the exception and `[]` is returned.  The
function is total: no exception propagates to the caller. -/
def fetch_articles : HttpOutcome → List Record
  | .failure => []
  | .response status body =>
      if status = 200 then
        match body with
        | some items => items
        | none => []
      else []

/-- Python `art.get(key, [""])[0]` for a list-valued field: absent gives the
default `[""]` whose first element is `""`; a present empty list raises
`IndexError`, modelled by `none`. -/
def getFirst : Option (List String) → Option String
  | none => some ""
  | some l => l.head?

/-- One output cell: `none` models Python `None` (written as an empty CSV
cell by pandas). -/
abbrev Cell := Option String

/-- One output row: the 10 values appended by `buffer_df.loc[len(buffer_df)]`. -/
abbrev Row := List Cell

/-- The row built for one article in the main loop.  `none` models the
uncaught `IndexError` from `art.get("title", [""])[0]` or
`art.get("container-title", [""])[0]` on a present-but-empty list. -/
def mapRow (issn : String) (fd td : Date) (art : Record) : Option Row :=
  match getFirst art.title, getFirst art.containerTitle with
  | some t, some ct =>
      some [some issn, art.doi, some t, art.volume, art.issue, art.page,
            some ct, art.publisher, some (dateIso fd), some (dateIso td)]
  | _, _ => none

/-- The column list of `open_new_file` (the Variant B/C schema). -/
def columnsList : List String :=
  ["ISSN", "DOI", "Article Title", "Volume", "Issue", "Page",
   "Journal Title", "Publisher", "From Date", "To Date"]

/-- The per-file row cap from the source configuration. -/
def MAX_ROWS_PER_FILE : Nat := 200000

/-- The file name built in `open_new_file`:
`output/issn_articles_{from_date}_to_{to_date}_part{part}.csv`. -/
def mkName (fd td : Date) (part : Nat) : String :=
  "output/issn_articles_" ++ dateIso fd ++ "_to_" ++ dateIso td ++
    "_part" ++ Nat.repr part ++ ".csv"

/-- One output CSV file: its path, its header row and its data rows. -/
structure OutFile where
  name : String
  header : List String
  rows : List Row
deriving DecidableEq

/-- Source `open_new_file(part)`: a fresh file with the fixed header and no
data rows yet. -/
def open_new_file (fd td : Date) (part : Nat) : OutFile :=
  { name := mkName fd td part, header := columnsList, rows := [] }

/-- The mutable state of the main processing loop: `file_part`,
`rows_written`, the currently open file (buffer), the files already flushed
and closed, and `generated_files` (paths in creation order). -/
structure SplitState where
  filePart : Nat
  rowsWritten : Nat
  current : OutFile
  closed : List OutFile
  genNames : List String
deriving DecidableEq

/-- The state just before the `for issn in issns:` loop. -/
def initState (fd td : Date) : SplitState :=
  { filePart := 1, rowsWritten := 0, current := open_new_file fd td 1,
    closed := [], genNames := [mkName fd td 1] }

/-- The body of the inner `for art in articles:` loop, minus the row mapping:
append the row to the buffer, bump `rows_written`, and on reaching the cap
flush and close the current file, then open part `file_part + 1`. -/
def pushRow (C : Nat) (fd td : Date) (s : SplitState) (row : Row) : SplitState :=
  let cur : OutFile := { s.current with rows := s.current.rows ++ [row] }
  if s.rowsWritten + 1 ≥ C then
    { filePart := s.filePart + 1, rowsWritten := 0,
      current := open_new_file fd td (s.filePart + 1),
      closed := s.closed ++ [cur],
      genNames := s.genNames ++ [mkName fd td (s.filePart + 1)] }
  else
    { s with current := cur, rowsWritten := s.rowsWritten + 1 }

/-- Feed a flat sequence of rows through the splitting loop. -/
def runRows (C : Nat) (fd td : Date) (rows : List Row) : SplitState :=
  rows.foldl (pushRow C fd td) (initState fd td)

/-- The final `buffer_df.to_csv(...); current_file.close()` after the loop:
the still-open file joins the closed ones.  The result is the full list of
output files in creation order. -/
def finalizeRun (s : SplitState) : List OutFile := s.closed ++ [s.current]

/-- A pandas cell as read from CSV/Excel: a string value, or a missing value
(`NaN`, produced for empty cells). -/
inductive PdCell where
  | str (s : String)
  | nan
deriving DecidableEq

/-- Python `str(cell)` under `.astype(str)`: `NaN` stringifies to `"nan"`. -/
def cellToStr : PdCell → String
  | .str s => s
  | .nan => "nan"

/-- A pandas DataFrame: named columns in order, each a list of cells. -/
structure DataFrame where
  cols : List (String × List PdCell)
deriving DecidableEq

/-- Substring occurrence test on character lists (Python `pat in s`). -/
def subOcc (pat : List Char) : List Char → Bool
  | [] => pat.isEmpty
  | c :: rest => pat.isPrefixOf (c :: rest) || subOcc pat rest

/-- Python `"issn" in col.lower()`. -/
def colMatches (name : String) : Bool :=
  subOcc ("issn".data) (name.data.map Char.toLower)

/-- The `for col in df.columns: if "issn" in col.lower(): ...; break` scan:
the first column whose name contains "issn" case-insensitively. -/
def findIssnCol (df : DataFrame) : Option (String × List PdCell) :=
  df.cols.find? (fun c => colMatches c.1)

/-- An uploaded file, dispatched on its extension as in the source. -/
inductive UploadFile where
  | csv (df : DataFrame)
  | xlsx (df : DataFrame)
  | txt (content : String)
deriving DecidableEq

/-- Source `extract_issns_from_file`: for tabular files, stringify every cell
of the first "issn" column; for text files, every line of the content. -/
def extract_issns_from_file : UploadFile → List String
  | .csv df =>
      match findIssnCol df with
      | some c => c.2.map cellToStr
      | none => []
  | .xlsx df =>
      match findIssnCol df with
      | some c => c.2.map cellToStr
      | none => []
  | .txt content => pySplitlines content

/-- The raw identifier list merged from the manual text box (split on commas
and newlines, only when non-blank) and the uploaded file, in source order. -/
def mergedInputs (manual : String) (fileInput : Option UploadFile) : List String :=
  (if pyStrip manual != "" then pySplitlines (pyReplaceCommaNL manual) else []) ++
    (match fileInput with
     | some f => extract_issns_from_file f
     | none => [])

/-- Process the articles fetched for one identifier: map each to a row and
push it; `none` when a row mapping raises (uncaught `IndexError`). -/
def pushArts (C : Nat) (fd td : Date) (issn : String) (arts : List Record)
    (s : SplitState) : Option SplitState :=
  arts.foldlM (fun st art => (mapRow issn fd td art).map (pushRow C fd td st)) s

/-- The `for issn in issns:` loop: fetch, map and push each identifier's
articles in order, recording each identifier whose fetch was issued.  Returns
`none` (and the fetch trace so far) when a row mapping raises. -/
def runIssns (net : String → HttpOutcome) (C : Nat) (fd td : Date) :
    List String → SplitState → List String → Option SplitState × List String
  | [], s, tr => (some s, tr)
  | issn :: rest, s, tr =>
      match pushArts C fd td issn (fetch_articles (net issn)) s with
      | none => (none, tr ++ [issn])
      | some s' => runIssns net C fd td rest s' (tr ++ [issn])

/-- Result of one run of the `if run:` block. -/
inductive RunResult where
  | dateError
  | noIssns
  | crash
  | ok (files : List OutFile)
deriving DecidableEq

/-- The whole `if run:` block: date validation, input normalization, the
fetch/accumulate/split loop and the final flush.  The second component is the
trace of identifiers for which a network fetch was issued, in order. -/
def runMain (net : String → HttpOutcome) (fd td : Date) (manual : String)
    (fileInput : Option UploadFile) (C : Nat) : RunResult × List String :=
  if dateLe fd td = false then (.dateError, [])
  else if normalize_issns (mergedInputs manual fileInput) = [] then (.noIssns, [])
  else
    match runIssns net C fd td (normalize_issns (mergedInputs manual fileInput))
        (initState fd td) [] with
    | (none, tr) => (.crash, tr)
    | (some s, tr) => (.ok (finalizeRun s), tr)

/-- The rows contributed by one identifier: its fetched articles, mapped,
dropping any that would raise (on a successful run none are dropped). -/
def rowsFor (net : String → HttpOutcome) (fd td : Date) (issn : String) : List Row :=
  (fetch_articles (net issn)).filterMap (mapRow issn fd td)

/-- Projection: the files of a successful run result. -/
def filesOf : RunResult → List OutFile
  | .ok fs => fs
  | _ => []

/-- Projection: whether a run result is a successful completion. -/
def isOk : RunResult → Bool
  | .ok _ => true
  | _ => false

/-- Sample from-date for concrete evaluations. -/
def dJan : Date := ⟨2025, 1, 1⟩

/-- Sample to-date for concrete evaluations. -/
def dDec : Date := ⟨2025, 12, 31⟩

/-- A work record with every optional field absent. -/
def emptyRec : Record :=
  { doi := none, title := none, volume := none, issue := none, page := none,
    containerTitle := none, publisher := none }

/-- A work record whose `title` field is a present-but-empty list. -/
def emptyTitleRec : Record :=
  { doi := none, title := some [], volume := none, issue := none, page := none,
    containerTitle := none, publisher := none }

/-- A network stub returning two well-formed records for every identifier. -/
def netTwo : String → HttpOutcome := fun _ => .response 200 (some [emptyRec, emptyRec])

/-- A network stub whose requests always fail. -/
def netFail : String → HttpOutcome := fun _ => .failure

/-- A sample data row, as the loop would build it for `emptyRec`. -/
def sampleRow : Row :=
  [some "1234-5678", none, some "", none, none, none, some "", none,
   some "2025-01-01", some "2025-12-31"]

/-- A one-column data frame whose ISSN column holds a single missing cell. -/
def dfNan : DataFrame := ⟨[("ISSN", [.nan])]⟩

/-! ### Order facts about `strDataLe` -/

theorem strDataLe_iff (a b : String) : strDataLe a b ↔ a ≤ b :=
  Iff.symm String.le_iff_toList_le

instance : IsTotal String strDataLe :=
  ⟨fun a b => (le_total a b).imp (strDataLe_iff a b).mpr (strDataLe_iff b a).mpr⟩

instance : IsTrans String strDataLe :=
  ⟨fun a b c h1 h2 =>
    (strDataLe_iff a c).mpr (le_trans ((strDataLe_iff a b).mp h1) ((strDataLe_iff b c).mp h2))⟩

instance : IsAntisymm String strDataLe :=
  ⟨fun a b h1 h2 => le_antisymm ((strDataLe_iff a b).mp h1) ((strDataLe_iff b a).mp h2)⟩

/-! ### Facts about `pyStrip` -/

theorem head_dropWhile_false (p : Char → Bool) :
    ∀ (l : List Char) (c : Char) (cs : List Char), l.dropWhile p = c :: cs → p c = false := by
  intro l
  induction l with
  | nil => intro c cs h; simp [List.dropWhile] at h
  | cons a l ih =>
      intro c cs h
      by_cases hp : p a
      · rw [List.dropWhile_cons_of_pos hp] at h
        exact ih c cs h
      · rw [List.dropWhile_cons_of_neg hp] at h
        cases h
        exact Bool.of_not_eq_true hp

theorem dropWhile_of_head_false (p : Char → Bool) (l : List Char)
    (h : ∀ c cs, l = c :: cs → p c = false) : l.dropWhile p = l := by
  cases l with
  | nil => rfl
  | cons c cs =>
      have hc : p c = false := h c cs rfl
      simp [List.dropWhile_cons, hc]

theorem getLast?_dropWhile (p : Char → Bool) :
    ∀ l : List Char, l.dropWhile p ≠ [] → (l.dropWhile p).getLast? = l.getLast? := by
  intro l
  induction l with
  | nil => intro h; simp [List.dropWhile] at h
  | cons a l ih =>
      intro h
      by_cases hp : p a
      · rw [List.dropWhile_cons_of_pos hp] at h ⊢
        rw [ih h]
        have hl : l ≠ [] := by
          intro he
          subst he
          simp [List.dropWhile] at h
        obtain ⟨b, bs, rfl⟩ := List.exists_cons_of_ne_nil hl
        simp [List.getLast?_cons_cons]
      · rw [List.dropWhile_cons_of_neg hp]

theorem stripChars_head_false (l : List Char) (c : Char) (cs : List Char)
    (h : stripChars l = c :: cs) : c.isWhitespace = false := by
  unfold stripChars at h
  have h2 : ((l.dropWhile Char.isWhitespace).reverse.dropWhile Char.isWhitespace) ≠ [] := by
    intro he
    rw [he] at h
    simp at h
  have hlast : ((l.dropWhile Char.isWhitespace).reverse.dropWhile Char.isWhitespace).getLast? =
      (l.dropWhile Char.isWhitespace).reverse.getLast? := getLast?_dropWhile _ _ h2
  have hrev : (c :: cs).head? =
      ((l.dropWhile Char.isWhitespace).reverse.dropWhile Char.isWhitespace).getLast? := by
    rw [← h]
    exact List.head?_reverse _
  rw [hlast, List.getLast?_reverse] at hrev
  cases hd : (l.dropWhile Char.isWhitespace) with
  | nil => rw [hd] at hrev; simp at hrev
  | cons d ds =>
      rw [hd] at hrev
      simp only [List.head?_cons, Option.some.injEq] at hrev
      rw [hrev]
      exact head_dropWhile_false Char.isWhitespace l d ds hd

theorem stripChars_getLast_false (l : List Char) (c : Char)
    (h : (stripChars l).getLast? = some c) : c.isWhitespace = false := by
  unfold stripChars at h
  rw [List.getLast?_reverse] at h
  cases hd : ((l.dropWhile Char.isWhitespace).reverse.dropWhile Char.isWhitespace) with
  | nil => rw [hd] at h; simp at h
  | cons d ds =>
      rw [hd] at h
      simp only [List.head?_cons, Option.some.injEq] at h
      exact h ▸ head_dropWhile_false Char.isWhitespace _ d ds hd

theorem stripChars_idem (l : List Char) : stripChars (stripChars l) = stripChars l := by
  have h1 : (stripChars l).dropWhile Char.isWhitespace = stripChars l := by
    apply dropWhile_of_head_false
    intro c cs h
    exact stripChars_head_false l c cs h
  show (((stripChars l).dropWhile Char.isWhitespace).reverse.dropWhile
      Char.isWhitespace).reverse = stripChars l
  rw [h1]
  have h2 : (stripChars l).reverse.dropWhile Char.isWhitespace = (stripChars l).reverse := by
    apply dropWhile_of_head_false
    intro c cs h
    have : (stripChars l).getLast? = some c := by
      rw [← List.head?_reverse, h]
      rfl
    exact stripChars_getLast_false l c this
  rw [h2, List.reverse_reverse]

theorem pyStrip_idem (s : String) : pyStrip (pyStrip s) = pyStrip s := by
  show (stripChars (stripChars s.data).asString.data).asString = (stripChars s.data).asString
  rw [show (stripChars s.data).asString.data = stripChars s.data from rfl, stripChars_idem]

/-! ### The splitter invariant -/

/-- Everything that stays true of the loop state while `rows` have been
pushed since the start of the run. -/
structure SplitInv (C : Nat) (fd td : Date) (rows : List Row) (s : SplitState) : Prop where
  rw_eq : s.rowsWritten = s.current.rows.length
  cur_lt : s.current.rows.length < C
  part_eq : s.filePart = s.closed.length + 1
  cur_name : s.current.name = mkName fd td s.filePart
  cur_header : s.current.header = columnsList
  closed_full : ∀ f ∈ s.closed, f.rows.length = C
  closed_header : ∀ f ∈ s.closed, f.header = columnsList
  closed_names : s.closed.map OutFile.name =
    (List.range s.closed.length).map (fun i => mkName fd td (i + 1))
  gen_names : s.genNames = (List.range s.filePart).map (fun i => mkName fd td (i + 1))
  content : (s.closed.map OutFile.rows).flatten ++ s.current.rows = rows

theorem splitInv_init (C : Nat) (hC : 0 < C) (fd td : Date) :
    SplitInv C fd td [] (initState fd td) := by
  refine ⟨rfl, hC, rfl, rfl, rfl, ?_, ?_, ?_, ?_, rfl⟩
  · intro f hf; simp [initState] at hf
  · intro f hf; simp [initState] at hf
  · simp [initState]
  · rfl

theorem splitInv_push {C : Nat} {fd td : Date} {rows : List Row} {s : SplitState}
    (h : SplitInv C fd td rows s) (row : Row) :
    SplitInv C fd td (rows ++ [row]) (pushRow C fd td s row) := by
  obtain ⟨h1, h2, h3, h4, h5, h6, h7, h8, h9, h10⟩ := h
  unfold pushRow
  by_cases hge : s.rowsWritten + 1 ≥ C
  · have hfull : s.current.rows.length + 1 = C := by omega
    simp only [hge, if_pos]
    refine ⟨?_, ?_, ?_, ?_, ?_, ?_, ?_, ?_, ?_, ?_⟩
    · simp [open_new_file]
    · simp only [open_new_file, List.length_nil]
      omega
    · simp [List.length_append, h3]
    · simp [open_new_file, List.length_append, h3]
    · simp [open_new_file]
    · intro f hf
      simp only [List.mem_append, List.mem_singleton] at hf
      rcases hf with hf | hf
      · exact h6 f hf
      · subst hf
        simp only [List.length_append, List.length_singleton]
        exact hfull
    · intro f hf
      simp only [List.mem_append, List.mem_singleton] at hf
      rcases hf with hf | hf
      · exact h7 f hf
      · subst hf
        exact h5
    · simp only [List.map_append, h8, List.length_append, List.length_singleton,
        List.map_cons, List.map_nil, List.range_succ]
      simp [h4, h3]
    · simp only [h9, h3, List.range_succ, List.map_append, List.map_cons, List.map_nil]
    · simp only [List.map_append, List.flatten_append, List.map_cons, List.map_nil,
        List.flatten_cons, List.flatten_nil, List.append_nil, open_new_file]
      rw [← List.append_assoc, h10]
  · simp only [hge, if_neg, not_false_iff]
    refine ⟨?_, ?_, h3, h4, h5, h6, h7, h8, h9, ?_⟩
    · simp [List.length_append, h1]
    · simp only [List.length_append, List.length_singleton]
      omega
    · simp only []
      rw [← List.append_assoc, h10]

theorem splitInv_foldl {C : Nat} (fd td : Date) (more : List Row) :
    ∀ rows s, SplitInv C fd td rows s →
      SplitInv C fd td (rows ++ more) (more.foldl (pushRow C fd td) s) := by
  induction more with
  | nil => intro rows s h; simpa using h
  | cons r more ih =>
      intro rows s h
      have h' := splitInv_push h r
      have := ih (rows ++ [r]) _ h'
      simpa [List.append_assoc] using this

theorem splitInv_runRows (C : Nat) (hC : 0 < C) (fd td : Date) (rows : List Row) :
    SplitInv C fd td rows (runRows C fd td rows) := by
  have := splitInv_foldl fd td rows [] (initState fd td) (splitInv_init C hC fd td)
  simpa [runRows] using this

theorem sum_const_list (c : Nat) : ∀ l : List Nat, (∀ x ∈ l, x = c) → l.sum = l.length * c := by
  intro l
  induction l with
  | nil => intro _; simp
  | cons a l ih =>
      intro h
      have ha : a = c := h a (List.mem_cons_self a l)
      have hl := ih (fun x hx => h x (List.mem_cons_of_mem a hx))
      simp only [List.sum_cons, List.length_cons, ha, hl]
      ring

theorem runRows_length (C : Nat) (hC : 0 < C) (fd td : Date) (rows : List Row) :
    rows.length = C * (runRows C fd td rows).closed.length +
      (runRows C fd td rows).current.rows.length := by
  have inv := splitInv_runRows C hC fd td rows
  have := congrArg List.length inv.content
  rw [List.length_append, List.length_flatten, List.map_map] at this
  have hsum : (((runRows C fd td rows).closed.map (List.length ∘ OutFile.rows)).sum) =
      (runRows C fd td rows).closed.length * C := by
    rw [← List.length_map _ (List.length ∘ OutFile.rows)]
    apply sum_const_list
    intro x hx
    rw [List.mem_map] at hx
    obtain ⟨f, hf, rfl⟩ := hx
    exact inv.closed_full f hf

  rw [hsum, Nat.mul_comm] at this
  exact this.symm

theorem runRows_closed_count (C : Nat) (hC : 0 < C) (fd td : Date) (rows : List Row) :
    (runRows C fd td rows).closed.length = rows.length / C ∧
      (runRows C fd td rows).current.rows.length = rows.length % C := by
  have inv := splitInv_runRows C hC fd td rows
  have hlen := runRows_length C hC fd td rows
  constructor
  · rw [hlen, Nat.mul_add_div hC, Nat.div_eq_of_lt inv.cur_lt, Nat.add_zero]
  · rw [hlen, Nat.mul_add_mod, Nat.mod_eq_of_lt inv.cur_lt]

theorem pushRow_closed_mono (C : Nat) (fd td : Date) (s : SplitState) (row : Row) :
    ∃ u, (pushRow C fd td s row).closed = s.closed ++ u := by
  unfold pushRow
  by_cases hge : s.rowsWritten + 1 ≥ C
  · simp only [hge, if_pos]
    exact ⟨_, rfl⟩
  · simp only [hge, if_neg, not_false_iff]
    exact ⟨[], (List.append_nil _).symm⟩

/-! ### Facts about `normalize_issns` -/

theorem normalize_nodup (issns : List String) : (normalize_issns issns).Nodup :=
  (List.perm_insertionSort strDataLe
    (((issns.filter (fun i => i != "")).map pyStrip).dedup)).symm.nodup (List.nodup_dedup _)

theorem mem_normalize_iff (issns : List String) (x : String) :
    x ∈ normalize_issns issns ↔ ∃ y, y ∈ issns ∧ y ≠ "" ∧ pyStrip y = x := by
  unfold normalize_issns
  rw [(List.perm_insertionSort strDataLe _).mem_iff, List.mem_dedup, List.mem_map]
  constructor
  · rintro ⟨y, hy, rfl⟩
    rw [List.mem_filter] at hy
    exact ⟨y, hy.1, by simpa using hy.2, rfl⟩
  · rintro ⟨y, hy, hne, rfl⟩
    exact ⟨y, List.mem_filter.mpr ⟨hy, by simpa using hne⟩, rfl⟩

theorem normalize_sorted (issns : List String) :
    (normalize_issns issns).Sorted (· ≤ ·) :=
  (List.sorted_insertionSort strDataLe
    (((issns.filter (fun i => i != "")).map pyStrip).dedup)).imp
    (fun hab => (strDataLe_iff _ _).mp hab)

theorem normalize_perm_inv (l l' : List String) (hp : l.Perm l') :
    normalize_issns l = normalize_issns l' := by
  refine List.eq_of_perm_of_sorted ?_ (List.sorted_insertionSort _ _)
    (List.sorted_insertionSort _ _)
  refine ((List.perm_insertionSort _ _).trans ?_).trans (List.perm_insertionSort _ _).symm
  exact ((hp.filter _).map _).dedup

/-! ### Facts about the run loop -/

theorem pushArts_some (C : Nat) (fd td : Date) (issn : String) :
    ∀ (arts : List Record) (s s' : SplitState),
      pushArts C fd td issn arts s = some s' →
      s' = (arts.filterMap (mapRow issn fd td)).foldl (pushRow C fd td) s := by
  intro arts
  induction arts with
  | nil =>
      intro s s' h
      simp only [pushArts, List.foldlM_nil] at h
      have hs : s' = s := (Option.some_inj.mp h).symm
      simp [hs]
  | cons a arts ih =>
      intro s s' h
      unfold pushArts at h
      rw [List.foldlM_cons] at h
      cases hm : mapRow issn fd td a with
      | none => rw [hm] at h; simp at h
      | some r =>
          rw [hm] at h
          simp only [Option.map_some', Option.some_bind] at h
          have := ih (pushRow C fd td s r) s' h
          rw [List.filterMap_cons_some hm, List.foldl_cons]
          exact this

theorem runIssns_ok (net : String → HttpOutcome) (C : Nat) (fd td : Date) :
    ∀ (issns : List String) (s : SplitState) (tr : List String) (s' : SplitState),
      (runIssns net C fd td issns s tr).1 = some s' →
      (runIssns net C fd td issns s tr).2 = tr ++ issns ∧
        s' = ((issns.map (rowsFor net fd td)).flatten).foldl (pushRow C fd td) s := by
  intro issns
  induction issns with
  | nil =>
      intro s tr s' h
      simp only [runIssns] at h
      have hs : s' = s := (Option.some_inj.mp h).symm
      subst hs
      simp [runIssns]
  | cons issn rest ih =>
      intro s tr s' h
      cases hp : pushArts C fd td issn (fetch_articles (net issn)) s with
      | none =>
          unfold runIssns at h
          rw [hp] at h
          simp at h
      | some s1 =>
          unfold runIssns at h ⊢
          rw [hp] at h ⊢
          simp only [] at h ⊢
          obtain ⟨htr, hs⟩ := ih s1 (tr ++ [issn]) s' h
          refine ⟨?_, ?_⟩
          · rw [htr, List.append_assoc]
            rfl
          · rw [hs, pushArts_some C fd td issn _ s s1 hp]
            rw [List.map_cons, List.flatten_cons, List.foldl_append]
            rfl

theorem runMain_ok (net : String → HttpOutcome) (fd td : Date) (manual : String)
    (fileInput : Option UploadFile) (C : Nat) (files : List OutFile) (tr : List String)
    (h : runMain net fd td manual fileInput C = (.ok files, tr)) :
    tr = normalize_issns (mergedInputs manual fileInput) ∧
      files = finalizeRun ((((normalize_issns (mergedInputs manual fileInput)).map
        (rowsFor net fd td)).flatten).foldl (pushRow C fd td) (initState fd td)) := by
  unfold runMain at h
  by_cases hd : dateLe fd td = false
  · rw [if_pos hd] at h
    simp at h
  · rw [if_neg hd] at h
    by_cases hni : normalize_issns (mergedInputs manual fileInput) = []
    · rw [if_pos hni] at h
      simp at h
    · rw [if_neg hni] at h
      cases hr : runIssns net C fd td (normalize_issns (mergedInputs manual fileInput))
          (initState fd td) [] with
      | mk os tr2 =>
          rw [hr] at h
          cases os with
          | none => simp at h
          | some s =>
              simp only [Prod.mk.injEq, RunResult.ok.injEq] at h
              obtain ⟨hf, htr⟩ := h
              have h1 : (runIssns net C fd td (normalize_issns (mergedInputs manual fileInput))
                  (initState fd td) []).1 = some s := by rw [hr]
              obtain ⟨htr2, hs⟩ := runIssns_ok net C fd td _ _ _ _ h1
              rw [hr] at htr2
              have htr2' : tr2 = [] ++ normalize_issns (mergedInputs manual fileInput) := htr2
              constructor
              · rw [← htr, htr2', List.nil_append]
              · rw [← hf, hs]

theorem foldl_closed_mono (C : Nat) (fd td : Date) :
    ∀ (more : List Row) (s : SplitState),
      ∃ t, (more.foldl (pushRow C fd td) s).closed = s.closed ++ t := by
  intro more
  induction more with
  | nil => intro s; exact ⟨[], by simp⟩
  | cons r more ih =>
      intro s
      obtain ⟨t, ht⟩ := ih (pushRow C fd td s r)
      obtain ⟨u, hu⟩ := pushRow_closed_mono C fd td s r
      rw [List.foldl_cons, ht, hu, List.append_assoc]
      exact ⟨u ++ t, rfl⟩

/-! ### Claim theorems -/

/-- C2: `fetch_articles` returns the response's item list on an HTTP 200
response with a well-formed body, and the empty list on any failure —
transport error or timeout (`failure`), non-200 status, or a malformed body —
and, being a total function, never propagates an exception to its caller. -/
theorem fetch_articles_error_handling :
    (∀ items : List Record, fetch_articles (.response 200 (some items)) = items) ∧
    (∀ (status : Nat) (body : Option (List Record)),
        status ≠ 200 → fetch_articles (.response status body) = []) ∧
    fetch_articles .failure = [] ∧
    (∀ status : Nat, fetch_articles (.response status none) = []) := by
  refine ⟨fun items => rfl, fun status body h => ?_, rfl, fun status => ?_⟩
  · simp [fetch_articles, h]
  · by_cases h : status = 200 <;> simp [fetch_articles, h]

theorem fetch_articles_error_handling_witness :
    fetch_articles (.response 404 (some [emptyRec])) = [] :=
  fetch_articles_error_handling.2.1 404 (some [emptyRec]) (by decide)

/-- C6: when the from-date is strictly later than the to-date (the
lexicographic `from <= to` test fails), the run reports the date error and
halts with an empty fetch trace: no network call is issued for any
identifier. -/
theorem inverted_dates_halt (net : String → HttpOutcome) (fd td : Date) (manual : String)
    (fileInput : Option UploadFile) (C : Nat) (h : dateLe fd td = false) :
    runMain net fd td manual fileInput C = (.dateError, []) := by
  simp [runMain, h]

theorem inverted_dates_halt_witness :
    runMain netFail ⟨2025, 2, 1⟩ ⟨2025, 1, 1⟩ "1234-5678" none 200000 = (.dateError, []) :=
  inverted_dates_halt netFail ⟨2025, 2, 1⟩ ⟨2025, 1, 1⟩ "1234-5678" none 200000 (by decide)

/-- C1 counterexample: with per-file cap 2 and a fetch yielding 2 records in
total, the run completes and produces 2 output files, while the claim
predicts `ceil(2/2) = 1` file. -/
theorem splitter_count_cex :
    isOk (runMain netTwo dJan dDec "1234-5678" none 2).1 = true ∧
    (filesOf (runMain netTwo dJan dDec "1234-5678" none 2).1).length = 2 ∧
    (2 + 2 - 1) / 2 = 1 := by
  decide

/-- C1 (amended): for per-file cap C > 0, feeding R data rows through the
splitter produces exactly `R / C + 1` files — that is `ceil(R/C)` when C does
not divide R, one more than `ceil(R/C)` when R is a positive multiple of C,
and 1 when R = 0 — each file holds at most C data rows, and the data-row
counts over all produced files sum to R. -/
theorem splitter_count_amended (C : Nat) (hC : 0 < C) (fd td : Date) (rows : List Row) :
    (finalizeRun (runRows C fd td rows)).length = rows.length / C + 1 ∧
    (∀ f ∈ finalizeRun (runRows C fd td rows), f.rows.length ≤ C) ∧
    ((finalizeRun (runRows C fd td rows)).map (fun f => f.rows.length)).sum = rows.length := by
  have inv := splitInv_runRows C hC fd td rows
  obtain ⟨hq, hr⟩ := runRows_closed_count C hC fd td rows
  refine ⟨?_, ?_, ?_⟩
  · rw [finalizeRun, List.length_append, hq]
    rfl
  · intro f hf
    rw [finalizeRun, List.mem_append, List.mem_singleton] at hf
    rcases hf with hf | hf
    · exact le_of_eq (inv.closed_full f hf)
    · subst hf
      exact le_of_lt inv.cur_lt
  · have hsum : ((runRows C fd td rows).closed.map (fun f => f.rows.length)).sum
        = (runRows C fd td rows).closed.length * C := by
      rw [← List.length_map _ (fun f => f.rows.length)]
      apply sum_const_list
      intro x hx
      rw [List.mem_map] at hx
      obtain ⟨f, hf, rfl⟩ := hx
      exact inv.closed_full f hf
    have hlen := runRows_length C hC fd td rows
    rw [finalizeRun, List.map_append, List.sum_append, hsum, Nat.mul_comm]
    simp only [List.map_cons, List.map_nil, List.sum_cons, List.sum_nil, Nat.add_zero]
    exact hlen.symm

theorem splitter_count_amended_witness :
    (finalizeRun (runRows 2 dJan dDec [sampleRow])).length = [sampleRow].length / 2 + 1 :=
  (splitter_count_amended 2 (by decide) dJan dDec [sampleRow]).1

/-- C5 counterexample: a run whose fetches all fail still finalizes one file
holding 0 data rows at the final flush, contradicting the claimed lower bound
of 1 data row per finalized file. -/
theorem final_file_zero_rows_cex :
    (filesOf (runMain netFail dJan dDec "1234-5678" none 2).1).map
        (fun f => f.rows.length) = [0] ∧ ¬ (1 : Nat) ≤ 0 := by
  decide

/-- C5 (amended): every output file, once finalized, holds at most C data
rows and carries the well-formed header; every file finalized by a mid-run
rollover holds exactly C data rows, while the file finalized at run end may
hold as few as zero; and finalized files are never reopened or written to
again — the closed-file list only ever grows by appending. -/
theorem file_finalization_amended (C : Nat) (hC : 0 < C) (fd td : Date) (rows : List Row) :
    (∀ f ∈ finalizeRun (runRows C fd td rows), f.rows.length ≤ C ∧ f.header = columnsList) ∧
    (∀ f ∈ (runRows C fd td rows).closed, f.rows.length = C) ∧
    (∀ more : List Row, ∃ t,
        (runRows C fd td (rows ++ more)).closed = (runRows C fd td rows).closed ++ t) := by
  have inv := splitInv_runRows C hC fd td rows
  refine ⟨?_, inv.closed_full, ?_⟩
  · intro f hf
    rw [finalizeRun, List.mem_append, List.mem_singleton] at hf
    rcases hf with hf | hf
    · exact ⟨le_of_eq (inv.closed_full f hf), inv.closed_header f hf⟩
    · subst hf
      exact ⟨le_of_lt inv.cur_lt, inv.cur_header⟩
  · intro more
    have hsplit : runRows C fd td (rows ++ more)
        = more.foldl (pushRow C fd td) (runRows C fd td rows) := by
      rw [runRows, runRows, List.foldl_append]
    rw [hsplit]
    exact foldl_closed_mono C fd td more (runRows C fd td rows)

theorem file_finalization_amended_witness :
    ({ name := mkName dJan dDec 1, header := columnsList,
        rows := [sampleRow] } : OutFile).rows.length ≤ 2 ∧
    ({ name := mkName dJan dDec 1, header := columnsList,
        rows := [sampleRow] } : OutFile).header = columnsList :=
  (file_finalization_amended 2 (by decide) dJan dDec [sampleRow]).1 _ (by decide)

/-- C7: every output file carries exactly the Variant B/C column schema in
order, and the file names embed the from/to date window and a 1-based part
counter 1, 2, … that increments by 1 on every rollover and is never reused,
in the form `output/issn_articles_<from>_to_<to>_part<N>.csv`. -/
theorem schema_and_part_numbers (C : Nat) (hC : 0 < C) (fd td : Date) (rows : List Row) :
    ((finalizeRun (runRows C fd td rows)).map OutFile.header =
      List.replicate (rows.length / C + 1) columnsList) ∧
    ((finalizeRun (runRows C fd td rows)).map OutFile.name =
      (List.range (rows.length / C + 1)).map (fun i => mkName fd td (i + 1))) ∧
    (∀ p : Nat, mkName fd td p = "output/issn_articles_" ++ dateIso fd ++ "_to_" ++
      dateIso td ++ "_part" ++ Nat.repr p ++ ".csv") ∧
    columnsList = ["ISSN", "DOI", "Article Title", "Volume", "Issue", "Page",
      "Journal Title", "Publisher", "From Date", "To Date"] := by
  have inv := splitInv_runRows C hC fd td rows
  obtain ⟨hq, hr⟩ := runRows_closed_count C hC fd td rows
  refine ⟨?_, ?_, fun p => rfl, rfl⟩
  · rw [List.eq_replicate_iff]
    constructor
    · rw [List.length_map, finalizeRun, List.length_append, hq]
      rfl
    · intro b hb
      rw [List.mem_map] at hb
      obtain ⟨f, hf, rfl⟩ := hb
      rw [finalizeRun, List.mem_append, List.mem_singleton] at hf
      rcases hf with hf | hf
      · exact inv.closed_header f hf
      · subst hf
        exact inv.cur_header
  · rw [finalizeRun, List.map_append, inv.closed_names, ← hq, List.range_succ,
      List.map_append]
    simp [inv.cur_name, inv.part_eq]

theorem schema_and_part_numbers_witness :
    mkName dJan dDec 3 = "output/issn_articles_" ++ dateIso dJan ++ "_to_" ++ dateIso dDec ++
      "_part" ++ Nat.repr 3 ++ ".csv" :=
  (schema_and_part_numbers 2 (by decide) dJan dDec []).2.2.1 3

/-- C3 counterexample: the entries "A" and "a" are equal after trimming and
ignoring letter case, yet both survive deduplication — `normalize_issns`
never case-folds, so dedup is case-sensitive. -/
theorem dedup_case_cex :
    (pyStrip "A").data.map Char.toLower = (pyStrip "a").data.map Char.toLower ∧
    "A" ≠ "a" ∧ normalize_issns ["A", "a"] = ["A", "a"] := by
  decide

/-- C3 (amended): deduplication is whitespace-insensitive but case-sensitive:
any two input entries that are equal after trimming surrounding whitespace
(letter case intact) contribute exactly one identifier to the output. -/
theorem dedup_trim_amended (issns : List String) (a b : String)
    (ha : a ∈ issns) (_hb : b ∈ issns) (ha' : a ≠ "") (_hb' : b ≠ "")
    (hab : pyStrip a = pyStrip b) :
    pyStrip a ∈ normalize_issns issns ∧
    (normalize_issns issns).count (pyStrip a) = 1 ∧
    (normalize_issns issns).count (pyStrip b) = 1 := by
  have hma : pyStrip a ∈ normalize_issns issns :=
    (mem_normalize_iff issns _).mpr ⟨a, ha, ha', rfl⟩
  have hone : (normalize_issns issns).count (pyStrip a) = 1 :=
    List.count_eq_one_of_mem (normalize_nodup issns) hma
  refine ⟨hma, hone, ?_⟩
  rw [← hab]
  exact hone

theorem dedup_trim_amended_witness :
    pyStrip " 1234-5678 " ∈ normalize_issns [" 1234-5678 ", "1234-5678"] ∧
    (normalize_issns [" 1234-5678 ", "1234-5678"]).count (pyStrip " 1234-5678 ") = 1 ∧
    (normalize_issns [" 1234-5678 ", "1234-5678"]).count (pyStrip "1234-5678") = 1 :=
  dedup_trim_amended [" 1234-5678 ", "1234-5678"] " 1234-5678 " "1234-5678"
    (by decide) (by decide) (by decide) (by decide) (by decide)

/-- C4 counterexample: a whitespace-only entry passes the pre-strip
truthiness check and strips to the empty string, which the Normalizer then
emits — its output is not always non-empty. -/
theorem normalize_empty_output_cex :
    normalize_issns ["   "] = [""] ∧ "" ∈ normalize_issns ["   "] := by
  decide

/-- C4 (amended): every element of the Normalizer's output equals its own
trimmed form, is the strip of some non-empty input entry, and the output
holds no duplicate elements; an element can be the empty string, namely when
some input entry is non-empty but consists only of whitespace. -/
theorem normalize_output_shape (issns : List String) (x : String)
    (hx : x ∈ normalize_issns issns) :
    pyStrip x = x ∧ (∃ y, y ∈ issns ∧ y ≠ "" ∧ pyStrip y = x) ∧
    (normalize_issns issns).Nodup := by
  obtain ⟨y, hy, hne, hst⟩ := (mem_normalize_iff issns x).mp hx
  refine ⟨?_, ⟨y, hy, hne, hst⟩, normalize_nodup issns⟩
  rw [← hst, pyStrip_idem]

theorem normalize_output_shape_witness :
    pyStrip "1234-5678" = "1234-5678" ∧
    (∃ y, y ∈ [" 1234-5678 "] ∧ y ≠ "" ∧ pyStrip y = "1234-5678") ∧
    (normalize_issns [" 1234-5678 "]).Nodup :=
  normalize_output_shape [" 1234-5678 "] "1234-5678" (by decide)

/-- C8: the row mapping is total exactly when neither `title` nor
`container-title` is a present-but-empty list; when one of them is present
and empty, the first-element access `[...][0]` is out of bounds and the step
fails (the `none` result models the uncaught `IndexError`); a field that is
entirely absent instead yields the empty string for its cell. -/
theorem row_mapping_partiality (issn : String) (fd td : Date) (art : Record) :
    (mapRow issn fd td art = none ↔
      art.title = some [] ∨ art.containerTitle = some []) ∧
    (∀ row, mapRow issn fd td art = some row →
      (art.title = none → row[2]? = some (some "")) ∧
      (art.containerTitle = none → row[6]? = some (some ""))) := by
  obtain ⟨doi, title, vol, iss, pg, ct, pub⟩ := art
  constructor
  · rcases title with _ | (_ | ⟨t, ts⟩) <;> rcases ct with _ | (_ | ⟨c, cs⟩) <;>
      simp [mapRow, getFirst]
  · intro row hrow
    rcases title with _ | (_ | ⟨t, ts⟩) <;> rcases ct with _ | (_ | ⟨c, cs⟩) <;>
      simp only [mapRow, getFirst, List.head?_nil, List.head?_cons,
        Option.some.injEq, reduceCtorEq] at hrow <;>
      first
      | exact absurd hrow (by simp)
      | (subst hrow
         constructor <;> intro h <;> first | rfl | simp at h)

theorem row_mapping_partiality_witness :
    mapRow "0000-0000" dJan dDec emptyTitleRec = none :=
  (row_mapping_partiality "0000-0000" dJan dDec emptyTitleRec).1.mpr (Or.inl rfl)

/-- C9: the Normalizer returns identifiers in ascending lexicographic order,
insensitive to the order of the merged input sources; consequently, on a
completed run, the fetch trace equals the sorted normalized identifier list
and the concatenation of all output data rows is grouped by identifier in
that sorted order, not first-seen order. -/
theorem sorted_processing_order (issns issns' : List String) (hp : issns.Perm issns')
    (net : String → HttpOutcome) (fd td : Date) (manual : String)
    (fileInput : Option UploadFile) (C : Nat) (hC : 0 < C) (files : List OutFile)
    (tr : List String)
    (hrun : runMain net fd td manual fileInput C = (.ok files, tr)) :
    (normalize_issns issns).Sorted (· ≤ ·) ∧
    normalize_issns issns = normalize_issns issns' ∧
    tr = normalize_issns (mergedInputs manual fileInput) ∧
    tr.Sorted (· ≤ ·) ∧
    (files.map OutFile.rows).flatten = (tr.map (rowsFor net fd td)).flatten := by
  obtain ⟨htr, hfiles⟩ := runMain_ok net fd td manual fileInput C files tr hrun
  refine ⟨normalize_sorted issns, normalize_perm_inv issns issns' hp, htr, ?_, ?_⟩
  · rw [htr]
    exact normalize_sorted _
  · have inv := splitInv_runRows C hC fd td
      (((normalize_issns (mergedInputs manual fileInput)).map (rowsFor net fd td)).flatten)
    have hcontent := inv.content
    rw [hfiles, htr]
    rw [finalizeRun, List.map_append, List.flatten_append]
    simp only [List.map_cons, List.map_nil, List.flatten_cons, List.flatten_nil,
      List.append_nil]
    exact hcontent

theorem sorted_processing_order_witness :
    (normalize_issns ["b", "a"]).Sorted (· ≤ ·) ∧
    normalize_issns ["b", "a"] = normalize_issns ["a", "b"] ∧
    ["a", "b"] = normalize_issns (mergedInputs "b,a" none) ∧
    (["a", "b"] : List String).Sorted (· ≤ ·) ∧
    (([{ name := mkName dJan dDec 1, header := columnsList, rows := [] }] :
        List OutFile).map OutFile.rows).flatten =
      ((["a", "b"] : List String).map (rowsFor netFail dJan dDec)).flatten :=
  sorted_processing_order ["b", "a"] ["a", "b"] (by decide) netFail dJan dDec "b,a" none 2
    (by decide) [{ name := mkName dJan dDec 1, header := columnsList, rows := [] }]
    ["a", "b"] (by decide)

/-- C10: in a CSV (or Excel) upload, the cells of the first column whose name
contains "issn" case-insensitively are stringified, so a missing (NaN) cell
yields the literal identifier "nan": it is non-empty, survives normalization,
and on a completed run appears in the fetch trace — it is queried against the
API as an identifier. -/
theorem nan_cell_identifier (df : DataFrame) (colName : String) (cells : List PdCell)
    (hcol : findIssnCol df = some (colName, cells)) (hnan : PdCell.nan ∈ cells)
    (net : String → HttpOutcome) (fd td : Date) (C : Nat) (files : List OutFile)
    (tr : List String)
    (hrun : runMain net fd td "" (some (.csv df)) C = (.ok files, tr)) :
    "nan" ∈ extract_issns_from_file (.csv df) ∧
    "nan" ∈ normalize_issns (extract_issns_from_file (.csv df)) ∧
    "nan" ∈ tr := by
  have hmem : "nan" ∈ extract_issns_from_file (.csv df) := by
    simp only [extract_issns_from_file, hcol]
    exact List.mem_map.mpr ⟨.nan, hnan, rfl⟩
  have hnorm : "nan" ∈ normalize_issns (extract_issns_from_file (.csv df)) :=
    (mem_normalize_iff _ _).mpr ⟨"nan", hmem, by decide, by decide⟩
  refine ⟨hmem, hnorm, ?_⟩
  obtain ⟨htr, hfiles⟩ := runMain_ok net fd td "" (some (.csv df)) C files tr hrun
  rw [htr]
  have hmerged : mergedInputs "" (some (.csv df)) = extract_issns_from_file (.csv df) := rfl
  rw [hmerged]
  exact hnorm

theorem nan_cell_identifier_witness :
    "nan" ∈ extract_issns_from_file (.csv dfNan) ∧
    "nan" ∈ normalize_issns (extract_issns_from_file (.csv dfNan)) ∧
    "nan" ∈ (["nan"] : List String) :=
  nan_cell_identifier dfNan "ISSN" [.nan] (by decide) (by decide) netFail dJan dDec 2
    [{ name := mkName dJan dDec 1, header := columnsList, rows := [] }] ["nan"] (by decide)

end App
